import Mathlib

/-!
Shallow embedding of the SmartSparse pruner (`finalsmartsparse.py`).

Tensors are modelled as flat `List ℚ` (shapes only matter through lengths;
pooling flattens everything anyway).  Floating-point arithmetic is modelled
by exact rational arithmetic.  Two operations of the source have no exact
rational counterpart and are therefore supplied as oracle parameters:

* `torch.std` (the square root of the Bessel-corrected variance) becomes a
  parameter `stdFn : List ℚ → ℚ`; the predicate `IsStd` pins down the value
  it must return (non-negative square root of `unbiasedVar`);
* `torch.log` inside `compute_entropy` becomes a parameter `logFn : ℚ → ℚ`.

The jitter `torch.randn(3) * 0.01` used by adaptive fusion is randomness
external to the algorithm and is passed in explicitly as `noise`.
-/

namespace SmartSparse

/-- A named module of the model: `name`/`isLinear` mirror
`model.named_modules()` plus the `isinstance(module, nn.Linear)` test,
`weight` is `module.weight.data` (flattened), `grad` is
`module.weight.grad` (`none` when no gradient was observed), and `bias`
stands for all remaining parameters of the module, untouched by the
pruner. -/
structure Layer where
  name : String
  isLinear : Bool
  weight : List ℚ
  grad : Option (List ℚ)
  bias : List ℚ
deriving DecidableEq

/-- The mutable state of a `SmartSparsePruner` instance: the fusion
coefficients `alpha`, `beta`, `gamma` and the insertion-ordered dictionary
`self.layerwise_scores`. -/
structure PrunerState where
  alpha : ℚ
  beta : ℚ
  gamma : ℚ
  layerwise_scores : List (String × List ℚ)
deriving DecidableEq

/-- Python dict read: first (and only) binding of a key. -/
def lookupScore : List (String × List ℚ) → String → Option (List ℚ)
  | [], _ => none
  | p :: t, key => if p.1 = key then some p.2 else lookupScore t key

/-- Python dict write `d[key] = v`: overwrite in place, else append. -/
def setScore : List (String × List ℚ) → String → List ℚ → List (String × List ℚ)
  | [], key, v => [(key, v)]
  | p :: t, key, v => if p.1 = key then (key, v) :: t else p :: setScore t key v

/-- Embeds `t.min()` of a non-empty tensor (0 as a junk value on the empty one). -/
def listMin : List ℚ → ℚ
  | [] => 0
  | a :: t => t.foldl min a

/-- Embeds `t.max()` of a non-empty tensor (0 as a junk value on the empty one). -/
def listMax : List ℚ → ℚ
  | [] => 0
  | a :: t => t.foldl max a

/-- Embeds `t.mean()`. -/
def listMean (l : List ℚ) : ℚ := l.sum / l.length

/-- The Bessel-corrected variance underlying `torch.std` (which divides by
`n - 1`).  `torch.std t` is the non-negative square root of this value. -/
def unbiasedVar (l : List ℚ) : ℚ :=
  (l.map (fun x => (x - listMean l) ^ 2)).sum / ((l.length : ℚ) - 1)

/-- Says that `s` is the value `torch.std` returns on `t`: the non-negative square
root of the Bessel-corrected variance. -/
def IsStd (t : List ℚ) (s : ℚ) : Prop := 0 ≤ s ∧ s ^ 2 = unbiasedVar t

/-- Embeds `torch.round`: round half to even, the IEEE default used by torch. -/
def roundHalfEven (q : ℚ) : ℤ :=
  if q - ⌊q⌋ < 1/2 then ⌊q⌋
  else if 1/2 < q - ⌊q⌋ then ⌊q⌋ + 1
  else if Even ⌊q⌋ then ⌊q⌋ else ⌊q⌋ + 1

/-- Embeds `SmartSparsePruner._normalize`: `(score - mean) / (std + 1e-8)`,
with `torch.std` supplied by the oracle `stdFn`. -/
def _normalize (stdFn : List ℚ → ℚ) (score : List ℚ) : List ℚ :=
  let mean := listMean score
  let std := stdFn score + 1/10^8
  score.map (fun x => (x - mean) / std)

/-- Embeds `SmartSparsePruner._compute_pqi`: squared round-trip quantization error
at bit width `bits`, zero tensor when the range degenerates
(`scale < 1e-9`). -/
def _compute_pqi (weight : List ℚ) (bits : ℕ) : List ℚ :=
  let qmin := listMin weight
  let qmax := listMax weight
  let scale := (qmax - qmin) / (2 ^ bits - 1)
  if scale < 1/10^9 then List.replicate weight.length 0
  else weight.map (fun w => (w - ((roundHalfEven ((w - qmin) / scale) : ℚ) * scale + qmin)) ^ 2)

/-- Embeds `SmartSparsePruner._compute_movement`: `grad.abs()`. -/
def _compute_movement (grad : List ℚ) : List ℚ := grad.map (fun g => |g|)

/-- Embeds `SmartSparsePruner._compute_hessian`:
`weight² / (2 * grad².clamp(min=1e-6))`. -/
def _compute_hessian (weight grad : List ℚ) : List ℚ :=
  List.zipWith (fun w g => w ^ 2 / (2 * max (g ^ 2) (1/10^6))) weight grad

/-- Embeds `compute_entropy`: min-max rescale to `[0,1]`, flatten, L1-normalize,
then `-Σ p · log (p + 1e-8)`, with `torch.log` supplied by `logFn`. -/
def compute_entropy (logFn : ℚ → ℚ) (t : List ℚ) : ℚ :=
  let probs := t.map (fun x => (x - listMin t) / (listMax t - listMin t + 1/10^8))
  let probs2 := probs.map (fun p => p / (probs.sum + 1/10^8));
  -(probs2.map (fun p => p * logFn (p + 1/10^8))).sum

/-- A module is processed by the scoring loop iff it is a linear layer
whose weight received a gradient. -/
def eligible (L : Layer) : Bool := L.isLinear && L.grad.isSome

/-- The normalized quantization score of a layer (`bits = 8` as in the
source's default). -/
def layerPqiN (stdFn : List ℚ → ℚ) (L : Layer) : List ℚ :=
  _normalize stdFn (_compute_pqi L.weight 8)

/-- The normalized movement score of a layer. -/
def layerMoveN (stdFn : List ℚ → ℚ) (L : Layer) : List ℚ :=
  _normalize stdFn (_compute_movement (L.grad.getD []))

/-- The normalized curvature score of a layer. -/
def layerHessN (stdFn : List ℚ → ℚ) (L : Layer) : List ℚ :=
  _normalize stdFn (_compute_hessian L.weight (L.grad.getD []))

/-- Computes `α·pqi + β·move + γ·hess`, elementwise. -/
def fuse (a b c : ℚ) (pqi move hess : List ℚ) : List ℚ :=
  List.zipWith (· + ·)
    (List.zipWith (· + ·) (pqi.map (a * ·)) (move.map (b * ·)))
    (hess.map (c * ·))

/-- The adaptive-mode fusion triple computed from the three normalized
score tensors of the layer that triggers the sentinel branch:
`weights = [1/E_pqi, 1/E_move, 1/E_hess]`, plus jitter, clamped to the
`0.01` floor, renormalized to sum to 1. -/
def adaptiveTriple (logFn : ℚ → ℚ) (noise : ℚ × ℚ × ℚ)
    (pqi move hess : List ℚ) : ℚ × ℚ × ℚ :=
  let w1 := max (1 / compute_entropy logFn pqi + noise.1) (1/100)
  let w2 := max (1 / compute_entropy logFn move + noise.2.1) (1/100)
  let w3 := max (1 / compute_entropy logFn hess + noise.2.2) (1/100)
  let s := w1 + w2 + w3
  (w1 / s, w2 / s, w3 / s)

/-- One iteration of the loop body of
`SmartSparsePruner.compute_importance_scores`: skip non-eligible modules;
otherwise normalize the three scores, resolve the adaptive sentinel
(`alpha == beta == gamma == -1`) if pending, fuse, and store under the
layer's name. -/
def processLayer (stdFn : List ℚ → ℚ) (logFn : ℚ → ℚ) (noise : ℚ × ℚ × ℚ)
    (st : PrunerState) (L : Layer) : PrunerState :=
  if eligible L then
    let pqi := layerPqiN stdFn L
    let move := layerMoveN stdFn L
    let hess := layerHessN stdFn L
    let st1 :=
      if st.alpha = st.beta ∧ st.beta = st.gamma ∧ st.gamma = -1 then
        let T := adaptiveTriple logFn noise pqi move hess
        { st with alpha := T.1, beta := T.2.1, gamma := T.2.2 }
      else st
    let fused := fuse st1.alpha st1.beta st1.gamma pqi move hess
    { st1 with layerwise_scores := setScore st1.layerwise_scores L.name fused }
  else st

/-- Embeds `SmartSparsePruner.compute_importance_scores`, with the backward pass
already folded into each layer's `grad` field: iterate `named_modules` in
order, threading the pruner state. -/
def compute_importance_scores (stdFn : List ℚ → ℚ) (logFn : ℚ → ℚ)
    (noise : ℚ × ℚ × ℚ) (st : PrunerState) (layers : List Layer) : PrunerState :=
  layers.foldl (processLayer stdFn logFn noise) st

/-- Python `int()` applied to a real value: truncation toward zero. -/
def truncInt (q : ℚ) : ℤ := if 0 ≤ q then ⌊q⌋ else -⌊-q⌋

/-- The failure modes `prune` can hit, named after the torch operation
that raises: `torch.cat` on an empty list of tensors, `torch.topk` with
`k` out of `[0, N]`, and `values[-1]` on the empty result of `topk(·, 0)`. -/
inductive PruneErr where
  | catEmpty : PruneErr
  | topkRange : PruneErr
  | emptyTopk : PruneErr
deriving DecidableEq

/-- The score tensor `prune` uses for a module, if any:
`self.layerwise_scores[name]`. -/
def scoreFor (st : PrunerState) (L : Layer) : Option (List ℚ) :=
  lookupScore st.layerwise_scores L.name

/-- The modules collected by the first loop of `prune`
(`isinstance(module, nn.Linear) and name in self.layerwise_scores`),
in `named_modules` order. -/
def matchedLayers (st : PrunerState) (model : List Layer) : List Layer :=
  model.filter (fun L => L.isLinear && (scoreFor st L).isSome)

/-- Embeds `torch.cat(all_scores)`: the stable concatenation of the matched
layers' flattened fused scores. -/
def prunePool (st : PrunerState) (model : List Layer) : List ℚ :=
  ((matchedLayers st model).map (fun L => (scoreFor st L).getD [])).flatten

/-- Embeds `k = int((1 - sparsity) * all_scores.numel())`. -/
def pruneK (sparsity : ℚ) (st : PrunerState) (model : List Layer) : ℤ :=
  truncInt ((1 - sparsity) * (prunePool st model).length)

/-- The pool sorted in descending order, as `torch.topk (largest=True)`
returns its `values`. -/
def sortDesc (l : List ℚ) : List ℚ := l.insertionSort (· ≥ ·)

/-- Embeds `torch.topk(all_scores, k).values[-1]`: the `k`-th largest element. -/
def kthLargest (l : List ℚ) (k : ℕ) : ℚ := (sortDesc l).getD (k - 1) 0

/-- Embeds `mask = (score >= threshold).float(); weight.mul_(mask)` — the new
weight tensor after masking. -/
def applyMask (threshold : ℚ) (score weight : List ℚ) : List ℚ :=
  List.zipWith (fun sc w => if threshold ≤ sc then w else 0) score weight

/-- The effect of the masking loop of `prune` on one module: only linear
modules present in `layerwise_scores` have their weight masked. -/
def maskLayer (threshold : ℚ) (st : PrunerState) (L : Layer) : Layer :=
  if L.isLinear && (scoreFor st L).isSome then
    { L with weight := applyMask threshold ((scoreFor st L).getD []) L.weight }
  else L

/-- Embeds `SmartSparsePruner.prune`: pool the fused scores of all matched
layers, compute `k` and the global top-`k` threshold, mask every matched
layer's weight in place.  The `Except` layer records exactly the places
where the torch primitives raise. -/
def prune (sparsity : ℚ) (st : PrunerState) (model : List Layer) :
    Except PruneErr (List Layer) :=
  if matchedLayers st model = [] then .error .catEmpty
  else
    let all_scores := prunePool st model
    let k : ℤ := truncInt ((1 - sparsity) * all_scores.length)
    if k < 0 ∨ (all_scores.length : ℤ) < k then .error .topkRange
    else if k = 0 then .error .emptyTopk
    else
      .ok (model.map (maskLayer (kthLargest all_scores k.toNat) st))

/-- The fused score `processLayer` stores for an eligible layer when the
sentinel branch is not taken. -/
def fusedScore (stdFn : List ℚ → ℚ) (st : PrunerState) (L : Layer) : List ℚ :=
  fuse st.alpha st.beta st.gamma (layerPqiN stdFn L) (layerMoveN stdFn L) (layerHessN stdFn L)

/-- The adaptive triple computed on a given layer's three normalized
score tensors. -/
def layerTriple (stdFn : List ℚ → ℚ) (logFn : ℚ → ℚ) (noise : ℚ × ℚ × ℚ)
    (L : Layer) : ℚ × ℚ × ℚ :=
  adaptiveTriple logFn noise (layerPqiN stdFn L) (layerMoveN stdFn L) (layerHessN stdFn L)

/-- The number of pool elements a threshold keeps (`mask.sum()` over the
whole pool). -/
def countGe (threshold : ℚ) (l : List ℚ) : ℕ :=
  l.countP (fun x => decide (threshold ≤ x))

/-! ### Elementary lemmas about means and variances -/

lemma sum_map_sub_div (l : List ℚ) (a c : ℚ) :
    (l.map (fun x => (x - a) / c)).sum = (l.sum - l.length * a) / c := by
  induction l with
  | nil => simp
  | cons x t ih =>
    simp only [List.map_cons, List.sum_cons, ih, List.length_cons]
    push_cast
    ring

lemma sum_map_sub_div_sq (l : List ℚ) (a c : ℚ) :
    (l.map (fun x => ((x - a) / c) ^ 2)).sum = (l.map (fun x => (x - a) ^ 2)).sum / c ^ 2 := by
  induction l with
  | nil => simp
  | cons x t ih =>
    simp only [List.map_cons, List.sum_cons, ih]
    rw [div_pow, add_div]

lemma listMean_normalize (stdFn : List ℚ → ℚ) (l : List ℚ) :
    listMean (_normalize stdFn l) = 0 := by
  rcases eq_or_ne l [] with h | h
  · subst h; simp [_normalize, listMean]
  · have hn : (l.length : ℚ) ≠ 0 :=
      Nat.cast_ne_zero.mpr (fun hlen => h (List.length_eq_zero.mp hlen))
    unfold _normalize listMean
    rw [List.length_map, sum_map_sub_div]
    rw [show l.sum - (l.length : ℚ) * (l.sum / l.length) = 0 by
      field_simp]
    simp

lemma unbiasedVar_normalize (stdFn : List ℚ → ℚ) (l : List ℚ) :
    unbiasedVar (_normalize stdFn l) = unbiasedVar l / (stdFn l + 1/10^8) ^ 2 := by
  unfold unbiasedVar
  rw [listMean_normalize]
  unfold _normalize
  rw [List.map_map, List.length_map]
  simp only [Function.comp_def, sub_zero]
  rw [sum_map_sub_div_sq, div_right_comm]

/-! ### Claim theorems: estimators and normalizer -/

/-- C4: for every weight tensor `W` and bit width `b`, with
`scale = (max W - min W) / (2^b - 1)`: if `scale < 1e-9` (in particular
whenever `max W = min W`) the quantization-error estimator returns an
all-zero tensor of `W`'s shape, and otherwise it returns the elementwise
squared round-trip error `(W - (round((W - qmin)/scale) * scale + qmin))²`;
being a pure function of `W`, it does not modify `W`, and the result always
has `W`'s shape. -/
theorem pqi_spec (w : List ℚ) (bits : ℕ) :
    ((listMax w - listMin w) / (2 ^ bits - 1) < 1/10^9 →
      _compute_pqi w bits = List.replicate w.length 0)
    ∧ (¬ (listMax w - listMin w) / (2 ^ bits - 1) < 1/10^9 →
      _compute_pqi w bits = w.map (fun x =>
        (x - ((roundHalfEven ((x - listMin w) / ((listMax w - listMin w) / (2 ^ bits - 1))) : ℚ)
          * ((listMax w - listMin w) / (2 ^ bits - 1)) + listMin w)) ^ 2))
    ∧ (listMax w = listMin w → _compute_pqi w bits = List.replicate w.length 0)
    ∧ (_compute_pqi w bits).length = w.length := by
  have hdeg : listMax w = listMin w →
      (listMax w - listMin w) / (2 ^ bits - 1) < 1/10^9 := by
    intro h
    rw [h, sub_self, zero_div]
    norm_num
  refine ⟨fun h => ?_, fun h => ?_, fun h => ?_, ?_⟩
  · simp only [_compute_pqi]
    rw [if_pos h]
  · simp only [_compute_pqi]
    rw [if_neg h]
  · simp only [_compute_pqi]
    rw [if_pos (hdeg h)]
  · simp only [_compute_pqi]
    split
    · rw [List.length_replicate]
    · rw [List.length_map]

/-- Witness for C4 at concrete inputs: a constant tensor maps to the zero
tensor, and a non-degenerate tensor maps through the round-trip formula. -/
theorem pqi_spec_witness :
    _compute_pqi [1, 1] 8 = List.replicate 2 0
    ∧ _compute_pqi [0, 255] 8 = List.map (fun x =>
        (x - ((roundHalfEven ((x - listMin [0, 255]) /
            ((listMax [0, 255] - listMin [0, 255]) / (2 ^ 8 - 1))) : ℚ)
          * ((listMax [0, 255] - listMin [0, 255]) / (2 ^ 8 - 1)) + listMin [0, 255])) ^ 2)
        [0, 255] := by
  constructor
  · exact (pqi_spec [1, 1] 8).2.2.1 (by norm_num [listMax, listMin])
  · exact (pqi_spec [0, 255] 8).2.1 (by norm_num [listMax, listMin])

/-- C5 (amended): the normalizer returns `(score - mean) / (std + 1e-8)`
with mean and std over all elements; whenever the input's standard
deviation is at least `1e-3`, the returned tensor's mean is 0 and its
standard deviation `s / (s + 1e-8)` is within `1e-5` of 1.  (The original
bound "std > 0" is too weak: see the counterexample with `std = 1e-8`.) -/
theorem normalize_spec (stdFn : List ℚ → ℚ) (score : List ℚ) (s : ℚ)
    (hstd : IsStd score s) (hfn : stdFn score = s) (hs : 1/1000 ≤ s) :
    _normalize stdFn score
      = score.map (fun x => (x - listMean score) / (s + 1/10^8))
    ∧ listMean (_normalize stdFn score) = 0
    ∧ IsStd (_normalize stdFn score) (s / (s + 1/10^8))
    ∧ |s / (s + 1/10^8) - 1| ≤ 1/10^5 := by
  have hc : (0 : ℚ) < s + 1/10^8 := by nlinarith [hs]
  refine ⟨?_, listMean_normalize stdFn score, ⟨?_, ?_⟩, ?_⟩
  · unfold _normalize
    rw [hfn]
  · positivity
  · rw [div_pow, unbiasedVar_normalize, hfn, hstd.2]
  · have hrw : s / (s + 1/10^8) - 1 = -((1/10^8) / (s + 1/10^8)) := by
      field_simp
    rw [hrw, abs_neg, abs_of_nonneg (by positivity)]
    rw [div_le_iff₀ hc]
    nlinarith [hs]

/-- Witness for C5 (amended) at the concrete tensor `[0, 1, 2]`,
whose Bessel-corrected standard deviation is exactly 1. -/
theorem normalize_spec_witness :
    listMean (_normalize (fun _ => 1) [0, 1, 2]) = 0
    ∧ IsStd (_normalize (fun _ => 1) [0, 1, 2]) (1 / (1 + 1/10^8))
    ∧ |(1 : ℚ) / (1 + 1/10^8) - 1| ≤ 1/10^5 := by
  have h := normalize_spec (fun _ => 1) [0, 1, 2] 1
    ⟨by norm_num, by norm_num [unbiasedVar, listMean]⟩ rfl (by norm_num)
  exact ⟨h.2.1, h.2.2.1, h.2.2.2⟩

/-- Counterexample to C5 as stated: the tensor `[0, 1e-8, 2e-8]` has
standard deviation `1e-8 > 0`, yet the normalized tensor is
`[-1/2, 0, 1/2]`, whose standard deviation is `1/2` — not within `1e-5`
of 1. -/
theorem normalize_std_counterexample :
    IsStd [0, 1/10^8, 2/10^8] (1/10^8)
    ∧ (0 : ℚ) < 1/10^8
    ∧ _normalize (fun _ => 1/10^8) [0, 1/10^8, 2/10^8] = [-(1/2), 0, 1/2]
    ∧ IsStd [-(1/2), 0, (1/2 : ℚ)] (1/2)
    ∧ ¬ |(1/2 : ℚ) - 1| ≤ 1/10^5 := by
  refine ⟨⟨by norm_num, by norm_num [unbiasedVar, listMean]⟩, by norm_num,
    by norm_num [_normalize, listMean], ⟨by norm_num, by norm_num [unbiasedVar, listMean]⟩,
    by rw [abs_of_nonpos (by norm_num)]; norm_num⟩

/-! ### Claim theorems: prune error behavior -/

/-- C8: when the fused-score mapping is empty at prune time, no module
matches, the list passed to `torch.cat` is empty, and `prune` fails
loudly (with the `torch.cat` error) instead of silently skipping. -/
theorem prune_empty_pool (sparsity : ℚ) (st : PrunerState) (model : List Layer)
    (h : st.layerwise_scores = []) :
    prune sparsity st model = .error .catEmpty := by
  have hm : matchedLayers st model = [] := by
    unfold matchedLayers
    rw [List.filter_eq_nil_iff]
    intro L _
    simp [scoreFor, h, lookupScore]
  unfold prune
  rw [if_pos hm]

/-- Witness for C8: a concrete model with a linear layer but an empty
score mapping. -/
theorem prune_empty_pool_witness :
    prune (1/2) ⟨0, 0, 0, []⟩ [⟨"a", true, [5, 7], none, []⟩] = .error .catEmpty :=
  prune_empty_pool (1/2) ⟨0, 0, 0, []⟩ [⟨"a", true, [5, 7], none, []⟩] rfl

/-- C2 (code bug): `prune(sparsity=0.0)` indeed prunes nothing (mask all
ones, weights unchanged), but `prune(sparsity=1.0)` computes `k = 0` and
then crashes on `torch.topk(·, 0).values[-1]` (IndexError on the empty
values tensor) — on uniform scores the weights are never kept because the
call never reaches the masking step. -/
theorem prune_sparsity_one_crash :
    prune 1 ⟨0, 0, 0, [("a", [0, 0])]⟩ [⟨"a", true, [5, 7], some [1, 1], []⟩]
      = .error .emptyTopk
    ∧ prune 0 ⟨0, 0, 0, [("a", [0, 0])]⟩ [⟨"a", true, [5, 7], some [1, 1], []⟩]
      = .ok [⟨"a", true, [5, 7], some [1, 1], []⟩] := by
  constructor
  · norm_num [prune, prunePool, matchedLayers, scoreFor, lookupScore, truncInt]
  · norm_num [prune, prunePool, matchedLayers, scoreFor, lookupScore, truncInt, kthLargest,
      sortDesc, List.insertionSort, List.orderedInsert, maskLayer, applyMask]
    simp

/-! ### Order-statistic machinery for the global threshold -/

lemma matched_ne_nil (st : PrunerState) (model : List Layer)
    (hne : prunePool st model ≠ []) : matchedLayers st model ≠ [] := by
  intro hm
  apply hne
  unfold prunePool
  rw [hm]
  rfl

lemma prune_unfold (s : ℚ) (st : PrunerState) (model : List Layer)
    (hm : matchedLayers st model ≠ []) :
    prune s st model =
      if pruneK s st model < 0 ∨ ((prunePool st model).length : ℤ) < pruneK s st model
        then .error .topkRange
        else if pruneK s st model = 0 then .error .emptyTopk
        else .ok (model.map (maskLayer (kthLargest (prunePool st model)
          (pruneK s st model).toNat) st)) := by
  unfold prune
  rw [if_neg hm]
  rfl

lemma countGe_sorted_strict : ∀ (l : List ℚ), l.Sorted (· > ·) →
    ∀ (i : ℕ) (h : i < l.length), countGe (l.get ⟨i, h⟩) l = i + 1 := by
  intro l
  induction l with
  | nil => intro _ i h; exact absurd h (Nat.not_lt_zero i)
  | cons a t ih =>
    intro hs i h
    have hconj := List.sorted_cons.mp hs
    cases i with
    | zero =>
      show countGe a (a :: t) = 1
      unfold countGe
      rw [List.countP_cons]
      have h0 : t.countP (fun x => decide (a ≤ x)) = 0 := by
        rw [List.countP_eq_zero]
        intro b hb
        simp only [decide_eq_true_eq]
        exact not_le.mpr (hconj.1 b hb)
      rw [h0]
      simp
    | succ j =>
      have hj : j < t.length := Nat.lt_of_succ_lt_succ h
      have hget : (a :: t).get ⟨j + 1, h⟩ = t.get ⟨j, hj⟩ := rfl
      rw [hget]
      unfold countGe
      rw [List.countP_cons]
      have hmem : t.get ⟨j, hj⟩ ∈ t := t.get_mem j hj
      have hdec : decide (t.get ⟨j, hj⟩ ≤ a) = true :=
        decide_eq_true (le_of_lt (hconj.1 _ hmem))
      rw [hdec]
      have ihv := ih hconj.2 j hj
      unfold countGe at ihv
      rw [ihv]
      simp

lemma sortDesc_sorted_strict (l : List ℚ) (h : l.Nodup) :
    (sortDesc l).Sorted (· > ·) := by
  have hs : (sortDesc l).Sorted (· ≥ ·) := List.sorted_insertionSort _ l
  have hnd : (sortDesc l).Nodup := ((List.perm_insertionSort _ l).nodup_iff).mpr h
  exact (List.Pairwise.and hs hnd).imp
    (fun hab => lt_of_le_of_ne hab.1 (Ne.symm hab.2))

lemma countGe_kthLargest (l : List ℚ) (k : ℕ) (hk1 : 1 ≤ k) (hk2 : k ≤ l.length)
    (hnd : l.Nodup) : countGe (kthLargest l k) l = k := by
  have hperm : (sortDesc l).Perm l := List.perm_insertionSort _ l
  have hlen : (sortDesc l).length = l.length := hperm.length_eq
  have hi : k - 1 < (sortDesc l).length := by omega
  have hthr : kthLargest l k = (sortDesc l).get ⟨k - 1, hi⟩ := by
    unfold kthLargest
    rw [List.getD_eq_getElem _ _ hi]
    rfl
  have hcnt : countGe ((sortDesc l).get ⟨k - 1, hi⟩) (sortDesc l) = (k - 1) + 1 :=
    countGe_sorted_strict (sortDesc l) (sortDesc_sorted_strict l hnd) (k - 1) hi
  have hcount_eq : countGe (kthLargest l k) l = countGe (kthLargest l k) (sortDesc l) :=
    (hperm.countP_eq _).symm
  rw [hcount_eq, hthr, hcnt]
  omega

lemma prune_ok (s : ℚ) (st : PrunerState) (model : List Layer)
    (h0 : 0 ≤ s) (h1 : s ≤ 1) (hne : prunePool st model ≠ [])
    (hk : 1 ≤ pruneK s st model) :
    prune s st model = .ok (model.map
        (maskLayer (kthLargest (prunePool st model) (pruneK s st model).toNat) st))
    ∧ pruneK s st model ≤ ((prunePool st model).length : ℤ)
    ∧ pruneK s st model = ⌊(1 - s) * ((prunePool st model).length : ℚ)⌋ := by
  have hq0 : (0:ℚ) ≤ (1 - s) * ((prunePool st model).length : ℚ) :=
    mul_nonneg (by linarith) (Nat.cast_nonneg _)
  have hfloor : pruneK s st model = ⌊(1 - s) * ((prunePool st model).length : ℚ)⌋ := by
    unfold pruneK truncInt
    rw [if_pos hq0]
  have hkN : pruneK s st model ≤ ((prunePool st model).length : ℤ) := by
    rw [hfloor]
    have hle : (1 - s) * ((prunePool st model).length : ℚ)
        ≤ ((prunePool st model).length : ℚ) := by
      nlinarith [Nat.cast_nonneg (α := ℚ) (prunePool st model).length]
    calc ⌊(1 - s) * ((prunePool st model).length : ℚ)⌋
        ≤ ⌊((prunePool st model).length : ℚ)⌋ := Int.floor_le_floor hle
      _ = ((prunePool st model).length : ℤ) := Int.floor_natCast _
  refine ⟨?_, hkN, hfloor⟩
  rw [prune_unfold s st model (matched_ne_nil st model hne)]
  rw [if_neg (by push_neg; constructor <;> omega), if_neg (by omega)]

/-! ### Claim theorems: thresholding -/

/-- C7 (amended): `prune` performs no sparsity validation and has no
`InvalidSparsityError` path; the keep-count `k` is always computed.  For
sparsity `< 0`, `k ≥ N`: when truncation lands exactly on `k = N` the
call silently succeeds (threshold is the pool minimum), otherwise the
top-`k` selection fails with a range error.  For sparsity `> 1`, `k ≤ 0`:
when truncation yields `k = 0` the empty-top-`k` indexing fails, otherwise
top-`k` fails with a range error. -/
theorem prune_no_validation_amended (s : ℚ) (st : PrunerState) (model : List Layer)
    (hne : prunePool st model ≠ []) :
    (s < 0 →
      ((prunePool st model).length : ℤ) ≤ pruneK s st model
      ∧ (pruneK s st model = ((prunePool st model).length : ℤ) →
          prune s st model = .ok (model.map
            (maskLayer (kthLargest (prunePool st model) (prunePool st model).length) st)))
      ∧ (((prunePool st model).length : ℤ) < pruneK s st model →
          prune s st model = .error .topkRange))
    ∧ (1 < s →
      pruneK s st model ≤ 0
      ∧ (pruneK s st model = 0 → prune s st model = .error .emptyTopk)
      ∧ (pruneK s st model < 0 → prune s st model = .error .topkRange)) := by
  have hN1 : 1 ≤ (prunePool st model).length := List.length_pos.mpr hne
  have hm := matched_ne_nil st model hne
  constructor
  · intro hs
    have hq0 : (0:ℚ) ≤ (1 - s) * ((prunePool st model).length : ℚ) :=
      mul_nonneg (by linarith) (Nat.cast_nonneg _)
    have hNk : ((prunePool st model).length : ℤ) ≤ pruneK s st model := by
      unfold pruneK truncInt
      rw [if_pos hq0]
      rw [Int.le_floor]
      push_cast
      nlinarith [Nat.cast_nonneg (α := ℚ) (prunePool st model).length,
        (by exact_mod_cast hN1 : (1:ℚ) ≤ ((prunePool st model).length : ℚ))]
    refine ⟨hNk, fun hkN => ?_, fun hlt => ?_⟩
    · rw [prune_unfold s st model hm]
      rw [if_neg (by push_neg; constructor <;> omega), if_neg (by omega)]
      rw [hkN]
      rw [Int.toNat_natCast]
    · rw [prune_unfold s st model hm]
      rw [if_pos (Or.inr hlt)]
  · intro hs
    have hq0 : (1 - s) * ((prunePool st model).length : ℚ) ≤ 0 :=
      mul_nonpos_of_nonpos_of_nonneg (by linarith) (Nat.cast_nonneg _)
    have hk0 : pruneK s st model ≤ 0 := by
      unfold pruneK truncInt
      split
      · have : (1 - s) * ((prunePool st model).length : ℚ) = 0 := le_antisymm hq0 (by assumption)
        rw [this]
        simp
      · have h1 : (0:ℤ) ≤ ⌊-((1 - s) * ((prunePool st model).length : ℚ))⌋ := by
          rw [Int.le_floor]
          push_cast
          linarith
        omega
    refine ⟨hk0, fun hk => ?_, fun hk => ?_⟩
    · rw [prune_unfold s st model hm]
      rw [if_neg (by push_neg; constructor <;> omega), if_pos hk]
    · rw [prune_unfold s st model hm]
      rw [if_pos (Or.inl hk)]

/-- Witness for C7 (amended): at sparsity `-1/4` with a 2-element pool,
`k = int(1.25·2) = 2 = N`, and the call silently succeeds. -/
theorem prune_no_validation_amended_witness :
    prune (-1/4) ⟨0, 0, 0, [("a", [0, 0])]⟩ [⟨"a", true, [5, 7], none, []⟩]
      = .ok ([⟨"a", true, [5, 7], none, []⟩].map
          (maskLayer (kthLargest
            (prunePool ⟨0, 0, 0, [("a", [0, 0])]⟩ [⟨"a", true, [5, 7], none, []⟩])
            (prunePool ⟨0, 0, 0, [("a", [0, 0])]⟩ [⟨"a", true, [5, 7], none, []⟩]).length)
            ⟨0, 0, 0, [("a", [0, 0])]⟩)) := by
  have h := (prune_no_validation_amended (-1/4) ⟨0, 0, 0, [("a", [0, 0])]⟩
      [⟨"a", true, [5, 7], none, []⟩]
      (by simp [prunePool, matchedLayers, scoreFor, lookupScore])).1 (by norm_num)
  exact h.2.1 (by norm_num [pruneK, prunePool, matchedLayers, scoreFor, lookupScore, truncInt])

/-- Counterexample to C7 as stated: sparsity `-1/4` is outside `[0,1]`,
yet `prune` does not reject it — it computes `k` and returns successfully
with every weight kept (no `InvalidSparsityError` is ever raised). -/
theorem prune_no_validation_counterexample :
    (-1/4 : ℚ) < 0
    ∧ prune (-1/4) ⟨0, 0, 0, [("a", [0, 0])]⟩ [⟨"a", true, [5, 7], none, []⟩]
        = .ok [⟨"a", true, [5, 7], none, []⟩] := by
  constructor
  · norm_num
  · norm_num [prune, prunePool, matchedLayers, scoreFor, lookupScore, truncInt, kthLargest,
      sortDesc, List.insertionSort, List.orderedInsert, maskLayer, applyMask]
    simp

/-- C1: for a valid sparsity `s` on a non-empty pool (with `k ≥ 1` so the
empty-top-`k` crash of C2 is not hit): the fused scores of all matched
layers are pooled into one flat sequence, the keep-count is
`k = ⌊(1-s)·N⌋`, the threshold is the `k`-th largest pooled score, every
layer's weight is masked by `fused_score ≥ threshold`; any pool element
equal to the threshold is kept, under pairwise-distinct pooled scores
exactly `k` elements pass the mask, and (last conjunct, concrete tied
pool `[1,1]` at `s = 1/2`) ties can make the realized kept-count exceed
`k`. -/
theorem prune_global_threshold (s : ℚ) (st : PrunerState) (model : List Layer)
    (h0 : 0 ≤ s) (h1 : s ≤ 1) (hne : prunePool st model ≠ [])
    (hk : 1 ≤ pruneK s st model) :
    pruneK s st model = ⌊(1 - s) * ((prunePool st model).length : ℚ)⌋
    ∧ prune s st model = .ok (model.map
        (maskLayer (kthLargest (prunePool st model) (pruneK s st model).toNat) st))
    ∧ (∀ x ∈ prunePool st model,
        x = kthLargest (prunePool st model) (pruneK s st model).toNat →
        kthLargest (prunePool st model) (pruneK s st model).toNat ≤ x)
    ∧ ((prunePool st model).Nodup →
        countGe (kthLargest (prunePool st model) (pruneK s st model).toNat)
          (prunePool st model) = (pruneK s st model).toNat)
    ∧ (pruneK (1/2) ⟨0, 0, 0, [("a", [1, 1])]⟩ [⟨"a", true, [2, 3], none, []⟩] = 1
        ∧ countGe (kthLargest
            (prunePool ⟨0, 0, 0, [("a", [1, 1])]⟩ [⟨"a", true, [2, 3], none, []⟩]) 1)
            (prunePool ⟨0, 0, 0, [("a", [1, 1])]⟩ [⟨"a", true, [2, 3], none, []⟩]) = 2) := by
  obtain ⟨hok, hkN, hfloor⟩ := prune_ok s st model h0 h1 hne hk
  refine ⟨hfloor, hok, ?_, ?_, ?_, ?_⟩
  · intro x _ hx
    exact le_of_eq hx.symm
  · intro hnd
    exact countGe_kthLargest (prunePool st model) (pruneK s st model).toNat
      (by omega) (by omega) hnd
  · norm_num [pruneK, prunePool, matchedLayers, scoreFor, lookupScore, truncInt]
  · norm_num [countGe, kthLargest, prunePool, matchedLayers, scoreFor, lookupScore,
      sortDesc, List.insertionSort, List.orderedInsert, List.countP_cons]

/-- Witness for C1 at a distinct-score pool `[1,2,3,4]`, sparsity `1/2`:
`k = 2`, the threshold is the 2nd largest score, and exactly 2 elements
pass the mask. -/
theorem prune_global_threshold_witness :
    prune (1/2) ⟨0, 0, 0, [("a", [1, 2, 3, 4])]⟩ [⟨"a", true, [10, 10, 10, 10], none, []⟩]
      = .ok ([⟨"a", true, [10, 10, 10, 10], none, []⟩].map
          (maskLayer (kthLargest
            (prunePool ⟨0, 0, 0, [("a", [1, 2, 3, 4])]⟩
              [⟨"a", true, [10, 10, 10, 10], none, []⟩])
            (pruneK (1/2) ⟨0, 0, 0, [("a", [1, 2, 3, 4])]⟩
              [⟨"a", true, [10, 10, 10, 10], none, []⟩]).toNat)
            ⟨0, 0, 0, [("a", [1, 2, 3, 4])]⟩))
    ∧ countGe (kthLargest
          (prunePool ⟨0, 0, 0, [("a", [1, 2, 3, 4])]⟩
            [⟨"a", true, [10, 10, 10, 10], none, []⟩])
          (pruneK (1/2) ⟨0, 0, 0, [("a", [1, 2, 3, 4])]⟩
            [⟨"a", true, [10, 10, 10, 10], none, []⟩]).toNat)
        (prunePool ⟨0, 0, 0, [("a", [1, 2, 3, 4])]⟩
          [⟨"a", true, [10, 10, 10, 10], none, []⟩])
      = (pruneK (1/2) ⟨0, 0, 0, [("a", [1, 2, 3, 4])]⟩
          [⟨"a", true, [10, 10, 10, 10], none, []⟩]).toNat := by
  have h := prune_global_threshold (1/2) ⟨0, 0, 0, [("a", [1, 2, 3, 4])]⟩
    [⟨"a", true, [10, 10, 10, 10], none, []⟩] (by norm_num) (by norm_num)
    (by simp [prunePool, matchedLayers, scoreFor, lookupScore])
    (by norm_num [pruneK, prunePool, matchedLayers, scoreFor, lookupScore, truncInt])
  exact ⟨h.2.1, h.2.2.2.1 (by
    norm_num [prunePool, matchedLayers, scoreFor, lookupScore, List.nodup_cons])⟩

/-- C10 (frame effect): on a successful `prune`, the result is the model
with every matched layer's weight replaced by its masked weight, and
nothing else: name, linearity flag, gradient and bias of every layer are
unchanged, layers that are not linear or have no score entry are returned
identically, and matched layers change only their weight, to
`applyMask threshold score weight`. -/
theorem prune_frame (s : ℚ) (st : PrunerState) (model : List Layer)
    (h0 : 0 ≤ s) (h1 : s ≤ 1) (hne : prunePool st model ≠ [])
    (hk : 1 ≤ pruneK s st model) :
    prune s st model = .ok (model.map
        (maskLayer (kthLargest (prunePool st model) (pruneK s st model).toNat) st))
    ∧ (∀ L ∈ model,
        ∀ t : ℚ,
        (maskLayer t st L).name = L.name
        ∧ (maskLayer t st L).isLinear = L.isLinear
        ∧ (maskLayer t st L).grad = L.grad
        ∧ (maskLayer t st L).bias = L.bias
        ∧ ((L.isLinear && (scoreFor st L).isSome) = false → maskLayer t st L = L)
        ∧ ((L.isLinear && (scoreFor st L).isSome) = true →
            (maskLayer t st L).weight = applyMask t ((scoreFor st L).getD []) L.weight)) := by
  refine ⟨(prune_ok s st model h0 h1 hne hk).1, ?_⟩
  intro L _ t
  unfold maskLayer
  by_cases hcond : (L.isLinear && (scoreFor st L).isSome) = true
  · rw [if_pos hcond]
    exact ⟨rfl, rfl, rfl, rfl, fun hfalse => absurd hcond (by rw [hfalse]; simp),
      fun _ => rfl⟩
  · rw [if_neg hcond]
    exact ⟨rfl, rfl, rfl, rfl, fun _ => rfl, fun htrue => absurd htrue hcond⟩

/-- Witness for C10: in the concrete C1 instance, the non-weight fields
of the single matched layer survive masking unchanged. -/
theorem prune_frame_witness :
    (maskLayer 3 ⟨0, 0, 0, [("a", [1, 2, 3, 4])]⟩
        ⟨"a", true, [10, 10, 10, 10], none, []⟩).grad = none
    ∧ (maskLayer 3 ⟨0, 0, 0, [("a", [1, 2, 3, 4])]⟩
        ⟨"a", true, [10, 10, 10, 10], none, []⟩).bias = [] := by
  have h := (prune_frame (1/2) ⟨0, 0, 0, [("a", [1, 2, 3, 4])]⟩
    [⟨"a", true, [10, 10, 10, 10], none, []⟩] (by norm_num) (by norm_num)
    (by simp [prunePool, matchedLayers, scoreFor, lookupScore])
    (by norm_num [pruneK, prunePool, matchedLayers, scoreFor, lookupScore, truncInt])).2
    ⟨"a", true, [10, 10, 10, 10], none, []⟩ (by simp) 3
  exact ⟨h.2.2.1, h.2.2.2.1⟩


/-! ### Lemmas about the scoring pass -/

lemma lookupScore_setScore_self (m : List (String × List ℚ)) (k : String) (v : List ℚ) :
    lookupScore (setScore m k v) k = some v := by
  induction m with
  | nil => simp [setScore, lookupScore]
  | cons p t ih =>
    by_cases h : p.1 = k
    · simp [setScore, lookupScore, h]
    · simp only [setScore, lookupScore, if_neg h]
      exact ih

lemma lookupScore_setScore_ne (m : List (String × List ℚ)) (k : String) (v : List ℚ)
    (nm : String) (h : nm ≠ k) :
    lookupScore (setScore m k v) nm = lookupScore m nm := by
  have hk : ¬ k = nm := fun hh => h hh.symm
  induction m with
  | nil => simp [setScore, lookupScore, hk]
  | cons p t ih =>
    by_cases hp : p.1 = k
    · simp [setScore, lookupScore, hp, hk]
    · simp only [setScore, if_neg hp, lookupScore]
      by_cases hnm : p.1 = nm
      · rw [if_pos hnm, if_pos hnm]
      · rw [if_neg hnm, if_neg hnm]
        exact ih

lemma processLayer_skip (stdFn : List ℚ → ℚ) (logFn : ℚ → ℚ) (noise : ℚ × ℚ × ℚ)
    (st : PrunerState) (L : Layer) (h : eligible L = false) :
    processLayer stdFn logFn noise st L = st := by
  unfold processLayer
  rw [h]
  rfl

lemma processLayer_eligible (stdFn : List ℚ → ℚ) (logFn : ℚ → ℚ) (noise : ℚ × ℚ × ℚ)
    (st : PrunerState) (L : Layer) (he : eligible L = true)
    (h : ¬ (st.alpha = st.beta ∧ st.beta = st.gamma ∧ st.gamma = -1)) :
    processLayer stdFn logFn noise st L =
      { st with layerwise_scores := setScore st.layerwise_scores L.name (fusedScore stdFn st L) } := by
  unfold processLayer
  rw [if_pos he]
  simp only [if_neg h]
  rfl

lemma processLayer_sentinel (stdFn : List ℚ → ℚ) (logFn : ℚ → ℚ) (noise : ℚ × ℚ × ℚ)
    (st : PrunerState) (L : Layer) (he : eligible L = true)
    (h : st.alpha = st.beta ∧ st.beta = st.gamma ∧ st.gamma = -1) :
    processLayer stdFn logFn noise st L =
      (fun T => { alpha := T.1, beta := T.2.1, gamma := T.2.2,
                  layerwise_scores := (setScore st.layerwise_scores L.name
                    (fuse T.1 T.2.1 T.2.2 (layerPqiN stdFn L) (layerMoveN stdFn L)
                      (layerHessN stdFn L))) })
        (adaptiveTriple logFn noise (layerPqiN stdFn L) (layerMoveN stdFn L) (layerHessN stdFn L)) := by
  unfold processLayer
  rw [if_pos he]
  simp only [if_pos h]

lemma processLayer_triple (stdFn : List ℚ → ℚ) (logFn : ℚ → ℚ) (noise : ℚ × ℚ × ℚ)
    (st : PrunerState) (L : Layer)
    (h : ¬ (st.alpha = st.beta ∧ st.beta = st.gamma ∧ st.gamma = -1)) :
    (processLayer stdFn logFn noise st L).alpha = st.alpha
    ∧ (processLayer stdFn logFn noise st L).beta = st.beta
    ∧ (processLayer stdFn logFn noise st L).gamma = st.gamma := by
  by_cases he : eligible L = true
  · rw [processLayer_eligible stdFn logFn noise st L he h]
    exact ⟨rfl, rfl, rfl⟩
  · rw [processLayer_skip stdFn logFn noise st L (by revert he; cases eligible L <;> simp)]
    exact ⟨rfl, rfl, rfl⟩

lemma compute_triple_frozen (stdFn : List ℚ → ℚ) (logFn : ℚ → ℚ) (noise : ℚ × ℚ × ℚ) :
    ∀ (layers : List Layer) (st : PrunerState),
    ¬ (st.alpha = st.beta ∧ st.beta = st.gamma ∧ st.gamma = -1) →
    (compute_importance_scores stdFn logFn noise st layers).alpha = st.alpha
    ∧ (compute_importance_scores stdFn logFn noise st layers).beta = st.beta
    ∧ (compute_importance_scores stdFn logFn noise st layers).gamma = st.gamma := by
  intro layers
  induction layers with
  | nil => intro st _; exact ⟨rfl, rfl, rfl⟩
  | cons H T ih =>
    intro st h
    have hp := processLayer_triple stdFn logFn noise st H h
    have hnot : ¬ ((processLayer stdFn logFn noise st H).alpha
        = (processLayer stdFn logFn noise st H).beta
        ∧ (processLayer stdFn logFn noise st H).beta
          = (processLayer stdFn logFn noise st H).gamma
        ∧ (processLayer stdFn logFn noise st H).gamma = -1) := by
      rw [hp.1, hp.2.1, hp.2.2]
      exact h
    have hrec := ih (processLayer stdFn logFn noise st H) hnot
    unfold compute_importance_scores at hrec ⊢
    rw [List.foldl_cons, hrec.1, hrec.2.1, hrec.2.2, hp.1, hp.2.1, hp.2.2]
    exact ⟨rfl, rfl, rfl⟩

lemma compute_skip_all (stdFn : List ℚ → ℚ) (logFn : ℚ → ℚ) (noise : ℚ × ℚ × ℚ) :
    ∀ (layers : List Layer) (st : PrunerState),
    (∀ L ∈ layers, eligible L = false) →
    compute_importance_scores stdFn logFn noise st layers = st := by
  intro layers
  induction layers with
  | nil => intro st _; rfl
  | cons H T ih =>
    intro st h
    unfold compute_importance_scores at ih ⊢
    rw [List.foldl_cons, processLayer_skip stdFn logFn noise st H (h H (List.mem_cons_self H T))]
    exact ih st (fun L hL => h L (List.mem_cons_of_mem H hL))

lemma compute_lookup_other (stdFn : List ℚ → ℚ) (logFn : ℚ → ℚ) (noise : ℚ × ℚ × ℚ) :
    ∀ (layers : List Layer) (st : PrunerState) (nm : String),
    (∀ L ∈ layers, L.name ≠ nm) →
    lookupScore (compute_importance_scores stdFn logFn noise st layers).layerwise_scores nm
      = lookupScore st.layerwise_scores nm := by
  intro layers
  induction layers with
  | nil => intro st nm _; rfl
  | cons H T ih =>
    intro st nm h
    have hHnm : nm ≠ H.name := fun hh => h H (List.mem_cons_self H T) hh.symm
    have hstep : lookupScore (processLayer stdFn logFn noise st H).layerwise_scores nm
        = lookupScore st.layerwise_scores nm := by
      by_cases he : eligible H = true
      · by_cases hsen : (st.alpha = st.beta ∧ st.beta = st.gamma ∧ st.gamma = -1)
        · rw [processLayer_sentinel stdFn logFn noise st H he hsen]
          exact lookupScore_setScore_ne _ _ _ nm hHnm
        · rw [processLayer_eligible stdFn logFn noise st H he hsen]
          exact lookupScore_setScore_ne _ _ _ nm hHnm
      · rw [processLayer_skip stdFn logFn noise st H (by revert he; cases eligible H <;> simp)]
    unfold compute_importance_scores at ih ⊢
    rw [List.foldl_cons,
      ih (processLayer stdFn logFn noise st H) nm (fun L hL => h L (List.mem_cons_of_mem H hL))]
    exact hstep

lemma compute_cons (stdFn : List ℚ → ℚ) (logFn : ℚ → ℚ) (noise : ℚ × ℚ × ℚ)
    (st : PrunerState) (L : Layer) (ls : List Layer) :
    compute_importance_scores stdFn logFn noise st (L :: ls)
      = compute_importance_scores stdFn logFn noise (processLayer stdFn logFn noise st L) ls := rfl

lemma compute_append (stdFn : List ℚ → ℚ) (logFn : ℚ → ℚ) (noise : ℚ × ℚ × ℚ)
    (st : PrunerState) (l1 l2 : List Layer) :
    compute_importance_scores stdFn logFn noise st (l1 ++ l2)
      = compute_importance_scores stdFn logFn noise
          (compute_importance_scores stdFn logFn noise st l1) l2 := by
  unfold compute_importance_scores
  exact List.foldl_append _ _ _ _

/-! ### Claim theorems: score-mapping lifecycle -/

/-- C9 (amended): the fused-score mapping accumulates across scoring
passes on one pruner instance — after a pass, a name has an entry iff
some layer of that pass was eligible (linear with a gradient) under that
name, **or it already had an entry before the pass**.  On a freshly
constructed pruner (empty mapping) this specializes to the claimed
invariant; across passes, entries of earlier passes persist even when the
layer received no gradient in the last pass. -/
theorem scores_accumulate (stdFn : List ℚ → ℚ) (logFn : ℚ → ℚ) (noise : ℚ × ℚ × ℚ) :
    ∀ (layers : List Layer) (st : PrunerState) (nm : String),
    lookupScore (compute_importance_scores stdFn logFn noise st layers).layerwise_scores nm ≠ none
      ↔ (∃ L ∈ layers, eligible L = true ∧ L.name = nm)
        ∨ lookupScore st.layerwise_scores nm ≠ none := by
  intro layers
  induction layers with
  | nil =>
    intro st nm
    simp [compute_importance_scores]
  | cons H T ih =>
    intro st nm
    have hstep : lookupScore (processLayer stdFn logFn noise st H).layerwise_scores nm ≠ none
        ↔ (eligible H = true ∧ H.name = nm) ∨ lookupScore st.layerwise_scores nm ≠ none := by
      by_cases he : eligible H = true
      · by_cases hnm : H.name = nm
        · subst hnm
          by_cases hsen : (st.alpha = st.beta ∧ st.beta = st.gamma ∧ st.gamma = -1)
          · rw [processLayer_sentinel stdFn logFn noise st H he hsen]
            simp [lookupScore_setScore_self, he]
          · rw [processLayer_eligible stdFn logFn noise st H he hsen]
            simp [lookupScore_setScore_self, he]
        · have hne : nm ≠ H.name := fun hh => hnm hh.symm
          by_cases hsen : (st.alpha = st.beta ∧ st.beta = st.gamma ∧ st.gamma = -1)
          · rw [processLayer_sentinel stdFn logFn noise st H he hsen]
            simp only [lookupScore_setScore_ne _ _ _ nm hne]
            simp [hnm]
          · rw [processLayer_eligible stdFn logFn noise st H he hsen]
            simp only [lookupScore_setScore_ne _ _ _ nm hne]
            simp [hnm]
      · have he2 : eligible H = false := by revert he; cases eligible H <;> simp
        rw [processLayer_skip stdFn logFn noise st H he2]
        simp [he2]
    rw [compute_cons, ih (processLayer stdFn logFn noise st H) nm, hstep]
    constructor
    · rintro (⟨L, hL, hel, hnm⟩ | (⟨hel, hnm⟩ | hst))
      · exact Or.inl ⟨L, List.mem_cons_of_mem H hL, hel, hnm⟩
      · exact Or.inl ⟨H, List.mem_cons_self H T, hel, hnm⟩
      · exact Or.inr hst
    · rintro (⟨L, hL, hel, hnm⟩ | hst)
      · rcases List.mem_cons.mp hL with rfl | hLT
        · exact Or.inr (Or.inl ⟨hel, hnm⟩)
        · exact Or.inl ⟨L, hLT, hel, hnm⟩
      · exact Or.inr (Or.inr hst)

/-- Counterexample to C9 as stated: run two scoring passes on the same
pruner state.  In the first pass layer `"a"` has a gradient; in the
second pass it has none (so its gradient is not observed in the most
recent pass).  The claim requires the mapping to have no entry for `"a"`
afterwards, but the stale entry `[0]` from the first pass persists. -/
theorem stale_scores_counterexample :
    eligible ⟨"a", true, [0], none, []⟩ = false
    ∧ lookupScore (compute_importance_scores (fun _ => 0) (fun _ => 0) (0, 0, 0)
        (compute_importance_scores (fun _ => 0) (fun _ => 0) (0, 0, 0)
          ⟨1/3, 1/3, 1/3, []⟩ [⟨"a", true, [0], some [0], []⟩])
        [⟨"a", true, [0], none, []⟩]).layerwise_scores "a" = some [0] := by
  refine ⟨rfl, ?_⟩
  rw [compute_skip_all (fun _ => 0) (fun _ => 0) (0, 0, 0) [⟨"a", true, [0], none, []⟩] _
    (by intro L hL; rw [List.mem_singleton.mp hL]; rfl)]
  rw [compute_cons]
  rw [processLayer_eligible (fun _ => 0) (fun _ => 0) (0, 0, 0) ⟨1/3, 1/3, 1/3, []⟩
    ⟨"a", true, [0], some [0], []⟩ rfl (by norm_num)]
  show lookupScore (setScore [] "a" _) "a" = _
  rw [lookupScore_setScore_self]
  congr 1
  norm_num [fusedScore, fuse, layerPqiN, layerMoveN, layerHessN, _normalize,
    _compute_pqi, _compute_movement, _compute_hessian, listMean, listMin, listMax,
    List.zipWith]

/-! ### Fixed-mode fusion -/

lemma map_one_mul (l : List ℚ) : l.map (1 * ·) = l := by
  induction l with
  | nil => rfl
  | cons a t ih => simp [ih]

lemma map_zero_mul (l : List ℚ) : l.map (0 * ·) = List.replicate l.length 0 := by
  induction l with
  | nil => rfl
  | cons a t ih => simp [ih, List.replicate_succ]

lemma zipWith_add_replicate_zero (l : List ℚ) :
    List.zipWith (· + ·) l (List.replicate l.length 0) = l := by
  induction l with
  | nil => rfl
  | cons a t ih => simp [List.replicate_succ, ih]

lemma fuse_one_zero_zero (p m h : List ℚ) (hm : m.length = p.length)
    (hh : h.length = p.length) : fuse 1 0 0 p m h = p := by
  unfold fuse
  rw [map_one_mul, map_zero_mul, map_zero_mul, hm, hh, zipWith_add_replicate_zero,
    zipWith_add_replicate_zero]

lemma layerPqiN_length (stdFn : List ℚ → ℚ) (L : Layer) :
    (layerPqiN stdFn L).length = L.weight.length := by
  unfold layerPqiN _normalize
  rw [List.length_map, (pqi_spec L.weight 8).2.2.2]

lemma layerMoveN_length (stdFn : List ℚ → ℚ) (L : Layer) :
    (layerMoveN stdFn L).length = (L.grad.getD []).length := by
  unfold layerMoveN _normalize _compute_movement
  rw [List.length_map, List.length_map]

lemma layerHessN_length (stdFn : List ℚ → ℚ) (L : Layer)
    (h : (L.grad.getD []).length = L.weight.length) :
    (layerHessN stdFn L).length = L.weight.length := by
  unfold layerHessN _normalize _compute_hessian
  rw [List.length_map, List.length_zipWith, h, min_self]

lemma fixed_fold_lookup (stdFn : List ℚ → ℚ) (logFn : ℚ → ℚ) (noise : ℚ × ℚ × ℚ) :
    ∀ (layers : List Layer) (st : PrunerState),
    st.alpha = 1 → st.beta = 0 → st.gamma = 0 →
    (layers.map Layer.name).Nodup →
    (∀ L ∈ layers, eligible L = true → (L.grad.getD []).length = L.weight.length) →
    ∀ L ∈ layers, eligible L = true →
    lookupScore (compute_importance_scores stdFn logFn noise st layers).layerwise_scores L.name
      = some (_normalize stdFn (_compute_pqi L.weight 8)) := by
  intro layers
  induction layers with
  | nil => intro st _ _ _ _ _ L hL; exact absurd hL (List.not_mem_nil L)
  | cons H T ih =>
    intro st ha hb hc hnd hsh L hL hel
    have hsent : ¬ (st.alpha = st.beta ∧ st.beta = st.gamma ∧ st.gamma = -1) := by
      rw [ha, hb]
      rintro ⟨h1, -⟩
      exact one_ne_zero h1
    rcases List.mem_cons.mp hL with rfl | hLT
    · rw [compute_cons]
      have hothers : ∀ M ∈ T, M.name ≠ L.name := by
        intro M hM heq
        exact (List.nodup_cons.mp hnd).1 (List.mem_map.mpr ⟨M, hM, heq⟩)
      rw [compute_lookup_other stdFn logFn noise T _ L.name hothers]
      rw [processLayer_eligible stdFn logFn noise st L hel hsent]
      show lookupScore (setScore st.layerwise_scores L.name (fusedScore stdFn st L)) L.name = _
      rw [lookupScore_setScore_self]
      congr 1
      unfold fusedScore
      rw [ha, hb, hc]
      have hlen := hsh L hL hel
      exact fuse_one_zero_zero _ _ _
        (by rw [layerMoveN_length, hlen, layerPqiN_length])
        (by rw [layerHessN_length stdFn L hlen, layerPqiN_length])
    · rw [compute_cons]
      have htriple := processLayer_triple stdFn logFn noise st H hsent
      exact ih (processLayer stdFn logFn noise st H)
        (by rw [htriple.1, ha]) (by rw [htriple.2.1, hb]) (by rw [htriple.2.2, hc])
        (List.nodup_cons.mp hnd).2
        (fun M hM hMe => hsh M (List.mem_cons_of_mem H hM) hMe)
        L hLT hel

/-- C6: in fixed mode with `α = 1, β = 0, γ = 0`, the fused score stored
for every eligible layer equals that layer's normalized quantization-error
score exactly, elementwise (layer names distinct, gradients of eligible
layers shaped like their weights). -/
theorem fixed_pqi_only (stdFn : List ℚ → ℚ) (logFn : ℚ → ℚ) (noise : ℚ × ℚ × ℚ)
    (sc : List (String × List ℚ)) (layers : List Layer)
    (hnd : (layers.map Layer.name).Nodup)
    (hsh : ∀ L ∈ layers, eligible L = true → (L.grad.getD []).length = L.weight.length) :
    ∀ L ∈ layers, eligible L = true →
    lookupScore (compute_importance_scores stdFn logFn noise
        ⟨1, 0, 0, sc⟩ layers).layerwise_scores L.name
      = some (_normalize stdFn (_compute_pqi L.weight 8)) :=
  fixed_fold_lookup stdFn logFn noise layers ⟨1, 0, 0, sc⟩ rfl rfl rfl hnd hsh

/-- Witness for C6 at a concrete one-layer model. -/
theorem fixed_pqi_only_witness :
    lookupScore (compute_importance_scores (fun _ => 0) (fun _ => 0) (0, 0, 0)
        ⟨1, 0, 0, []⟩ [⟨"a", true, [0, 1], some [2, 3], []⟩]).layerwise_scores "a"
      = some (_normalize (fun _ => 0) (_compute_pqi [0, 1] 8)) :=
  fixed_pqi_only (fun _ => 0) (fun _ => 0) (0, 0, 0) [] [⟨"a", true, [0, 1], some [2, 3], []⟩]
    (by simp) (by intro L hL _; rw [List.mem_singleton.mp hL]; rfl)
    ⟨"a", true, [0, 1], some [2, 3], []⟩ (List.mem_singleton.mpr rfl) rfl

/-! ### Adaptive-mode fusion -/

lemma adaptiveTriple_props (logFn : ℚ → ℚ) (noise : ℚ × ℚ × ℚ) (p m h : List ℚ) :
    (adaptiveTriple logFn noise p m h).1 + (adaptiveTriple logFn noise p m h).2.1
      + (adaptiveTriple logFn noise p m h).2.2 = 1
    ∧ 0 < (adaptiveTriple logFn noise p m h).2.2 := by
  unfold adaptiveTriple
  have h1 : (1:ℚ)/100 ≤ max (1 / compute_entropy logFn p + noise.1) (1/100) := le_max_right _ _
  have h2 : (1:ℚ)/100 ≤ max (1 / compute_entropy logFn m + noise.2.1) (1/100) := le_max_right _ _
  have h3 : (1:ℚ)/100 ≤ max (1 / compute_entropy logFn h + noise.2.2) (1/100) := le_max_right _ _
  have hs : 0 < max (1 / compute_entropy logFn p + noise.1) (1/100)
      + max (1 / compute_entropy logFn m + noise.2.1) (1/100)
      + max (1 / compute_entropy logFn h + noise.2.2) (1/100) := by linarith
  constructor
  · rw [div_add_div_same, div_add_div_same, div_self hs.ne']
  · exact div_pos (by linarith) hs

lemma layerTriple_not_sentinel (stdFn : List ℚ → ℚ) (logFn : ℚ → ℚ)
    (noise : ℚ × ℚ × ℚ) (L : Layer) :
    ¬ ((layerTriple stdFn logFn noise L).1 = (layerTriple stdFn logFn noise L).2.1
      ∧ (layerTriple stdFn logFn noise L).2.1 = (layerTriple stdFn logFn noise L).2.2
      ∧ (layerTriple stdFn logFn noise L).2.2 = -1) := by
  rintro ⟨-, -, h3⟩
  have hpos := (adaptiveTriple_props logFn noise (layerPqiN stdFn L) (layerMoveN stdFn L)
    (layerHessN stdFn L)).2
  unfold layerTriple at h3
  rw [h3] at hpos
  linarith

/-- C3: in adaptive mode (all three fusion weights equal to the sentinel
`-1`), with the first eligible layer `L0` of the pass (every earlier
module is skipped), the `(α,β,γ)` triple is computed from the entropies of
`L0`'s three normalized score tensors only (`layerTriple`), the whole
scoring pass behaves exactly as if that frozen triple had been installed
from the start (so every subsequent layer reuses it unchanged), the final
pruner state carries exactly that triple, and after jitter, the `0.01`
clamp and renormalization the triple sums to 1 within `1e-6` (here:
exactly, since the renormalization is exact in ℚ). -/
theorem adaptive_freeze (stdFn : List ℚ → ℚ) (logFn : ℚ → ℚ) (noise : ℚ × ℚ × ℚ)
    (sc : List (String × List ℚ)) (pre post : List Layer) (L0 : Layer)
    (hpre : ∀ L ∈ pre, eligible L = false) (hL0 : eligible L0 = true) :
    compute_importance_scores stdFn logFn noise ⟨-1, -1, -1, sc⟩ (pre ++ L0 :: post)
      = compute_importance_scores stdFn logFn noise
          ⟨(layerTriple stdFn logFn noise L0).1, (layerTriple stdFn logFn noise L0).2.1,
            (layerTriple stdFn logFn noise L0).2.2, sc⟩ (pre ++ L0 :: post)
    ∧ (compute_importance_scores stdFn logFn noise ⟨-1, -1, -1, sc⟩
        (pre ++ L0 :: post)).alpha = (layerTriple stdFn logFn noise L0).1
    ∧ (compute_importance_scores stdFn logFn noise ⟨-1, -1, -1, sc⟩
        (pre ++ L0 :: post)).beta = (layerTriple stdFn logFn noise L0).2.1
    ∧ (compute_importance_scores stdFn logFn noise ⟨-1, -1, -1, sc⟩
        (pre ++ L0 :: post)).gamma = (layerTriple stdFn logFn noise L0).2.2
    ∧ |(layerTriple stdFn logFn noise L0).1 + (layerTriple stdFn logFn noise L0).2.1
        + (layerTriple stdFn logFn noise L0).2.2 - 1| ≤ 1/10^6 := by
  have hsum := (adaptiveTriple_props logFn noise (layerPqiN stdFn L0) (layerMoveN stdFn L0)
    (layerHessN stdFn L0)).1
  have hns := layerTriple_not_sentinel stdFn logFn noise L0
  have hstate : processLayer stdFn logFn noise ⟨-1, -1, -1, sc⟩ L0
      = processLayer stdFn logFn noise ⟨(layerTriple stdFn logFn noise L0).1,
          (layerTriple stdFn logFn noise L0).2.1,
          (layerTriple stdFn logFn noise L0).2.2, sc⟩ L0 := by
    rw [processLayer_sentinel stdFn logFn noise ⟨-1, -1, -1, sc⟩ L0 hL0 ⟨rfl, rfl, rfl⟩]
    rw [processLayer_eligible stdFn logFn noise _ L0 hL0 hns]
    rfl
  have hmain : compute_importance_scores stdFn logFn noise ⟨-1, -1, -1, sc⟩ (pre ++ L0 :: post)
      = compute_importance_scores stdFn logFn noise
          ⟨(layerTriple stdFn logFn noise L0).1, (layerTriple stdFn logFn noise L0).2.1,
            (layerTriple stdFn logFn noise L0).2.2, sc⟩ (pre ++ L0 :: post) := by
    rw [compute_append, compute_append,
      compute_skip_all stdFn logFn noise pre _ hpre,
      compute_skip_all stdFn logFn noise pre _ hpre,
      compute_cons, compute_cons, hstate]
  have hfrozen := compute_triple_frozen stdFn logFn noise (pre ++ L0 :: post)
    ⟨(layerTriple stdFn logFn noise L0).1, (layerTriple stdFn logFn noise L0).2.1,
      (layerTriple stdFn logFn noise L0).2.2, sc⟩ hns
  refine ⟨hmain, ?_, ?_, ?_, ?_⟩
  · rw [hmain]; exact hfrozen.1
  · rw [hmain]; exact hfrozen.2.1
  · rw [hmain]; exact hfrozen.2.2
  · unfold layerTriple
    rw [hsum]
    norm_num

/-- Witness for C3 at a concrete one-layer pass in adaptive mode. -/
theorem adaptive_freeze_witness :
    (compute_importance_scores (fun _ => 0) (fun _ => 0) (0, 0, 0) ⟨-1, -1, -1, []⟩
        [⟨"a", true, [0], some [1], []⟩]).alpha
      = (layerTriple (fun _ => 0) (fun _ => 0) (0, 0, 0) ⟨"a", true, [0], some [1], []⟩).1
    ∧ |(layerTriple (fun _ => 0) (fun _ => 0) (0, 0, 0) ⟨"a", true, [0], some [1], []⟩).1
        + (layerTriple (fun _ => 0) (fun _ => 0) (0, 0, 0) ⟨"a", true, [0], some [1], []⟩).2.1
        + (layerTriple (fun _ => 0) (fun _ => 0) (0, 0, 0) ⟨"a", true, [0], some [1], []⟩).2.2
        - 1| ≤ 1/10^6 := by
  have h := adaptive_freeze (fun _ => 0) (fun _ => 0) (0, 0, 0) [] [] []
    ⟨"a", true, [0], some [1], []⟩ (by intro L hL; exact absurd hL (List.not_mem_nil L)) rfl
  exact ⟨h.2.1, h.2.2.2.2⟩

end SmartSparse
